import Mathlib

/-!
Verification of the event-service core (Go sources under internal/model,
internal/store, internal/worker and internal/app) against its design
specification.

The Go data is embedded shallowly:
* a Go map is an association list with first-match lookup and
  overwrite-on-insert semantics;
* `model.EventStatus` is a Go string type, so it is embedded as `String`;
* the stateful operations of `store.Store`, `worker.Worker` and
  `App.handleEvents` become pure state-passing functions;
* concurrency-sensitive claims use explicit interleaving machines whose
  atomic steps are the critical sections of the Go code (one step per
  lock scope or channel operation).
-/

/-! ### Generic association-list maps (Go map semantics) -/

/-- Lookup by key, first match wins (a Go map has at most one entry per key,
for which this coincides with map indexing). -/
def alookup {κ α : Type} [DecidableEq κ] : List (κ × α) → κ → Option α
  | [], _ => none
  | (k', v) :: rest, k => if k' = k then some v else alookup rest k

/-- Insert, overwriting the first entry with the same key (Go map assignment
`m[k] = v`). -/
def ainsert {κ α : Type} [DecidableEq κ] : List (κ × α) → κ → α → List (κ × α)
  | [], k, v => [(k, v)]
  | (k', v') :: rest, k, v =>
      if k' = k then (k, v) :: rest else (k', v') :: ainsert rest k v

/-- Update the value at a key in place when present; leave the map unchanged
when the key is absent. -/
def aupdate {κ α : Type} [DecidableEq κ] (f : α → α) : List (κ × α) → κ → List (κ × α)
  | [], _ => []
  | (k', v) :: rest, k =>
      if k' = k then (k', f v) :: rest else (k', v) :: aupdate f rest k

theorem alookup_ainsert_self {κ α : Type} [DecidableEq κ]
    (m : List (κ × α)) (k : κ) (v : α) : alookup (ainsert m k v) k = some v := by
  induction m with
  | nil => simp [ainsert, alookup]
  | cons kv rest ih =>
      obtain ⟨k', v'⟩ := kv
      by_cases h : k' = k
      · simp [ainsert, h, alookup]
      · simp [ainsert, h, alookup, ih]

theorem alookup_ainsert_ne {κ α : Type} [DecidableEq κ]
    (m : List (κ × α)) (k k₀ : κ) (v : α) (h : k ≠ k₀) :
    alookup (ainsert m k v) k₀ = alookup m k₀ := by
  induction m with
  | nil => simp [ainsert, alookup, h]
  | cons kv rest ih =>
      obtain ⟨k', v'⟩ := kv
      by_cases hk : k' = k
      · subst hk
        simp [ainsert, alookup, h]
      · simp [ainsert, hk, alookup, ih]

theorem alookup_aupdate {κ α : Type} [DecidableEq κ]
    (f : α → α) (m : List (κ × α)) (k k₀ : κ) :
    alookup (aupdate f m k) k₀ =
      if k = k₀ then (alookup m k₀).map f else alookup m k₀ := by
  induction m with
  | nil => by_cases h : k = k₀ <;> simp [aupdate, alookup, h]
  | cons kv rest ih =>
      obtain ⟨k', v'⟩ := kv
      by_cases hk : k' = k
      · subst hk
        by_cases h0 : k' = k₀
        · simp [aupdate, alookup, h0]
        · simp [aupdate, alookup, h0, if_neg h0]
      · by_cases h0 : k' = k₀
        · subst h0
          have : k ≠ k' := fun h => hk h.symm
          simp [aupdate, hk, alookup, this]
        · simp [aupdate, hk, alookup, h0, ih]

theorem aupdate_of_alookup_none {κ α : Type} [DecidableEq κ]
    (f : α → α) (m : List (κ × α)) (k : κ) (h : alookup m k = none) :
    aupdate f m k = m := by
  induction m with
  | nil => simp [aupdate]
  | cons kv rest ih =>
      obtain ⟨k', v'⟩ := kv
      by_cases hk : k' = k
      · simp [alookup, hk] at h
      · simp [alookup, hk] at h
        simp [aupdate, hk, ih h]

theorem mem_of_alookup_eq_some {κ α : Type} [DecidableEq κ]
    (m : List (κ × α)) (k : κ) (v : α) (h : alookup m k = some v) : (k, v) ∈ m := by
  induction m with
  | nil => simp [alookup] at h
  | cons kv rest ih =>
      obtain ⟨k', v'⟩ := kv
      by_cases hk : k' = k
      · subst hk
        simp [alookup] at h
        simp [h]
      · simp [alookup, hk] at h
        exact List.mem_cons_of_mem _ (ih h)

theorem forall_mem_ainsert {κ α : Type} [DecidableEq κ]
    (m : List (κ × α)) (k : κ) (v : α) (P : κ × α → Prop)
    (hm : ∀ kv ∈ m, P kv) (hv : P (k, v)) : ∀ kv ∈ ainsert m k v, P kv := by
  induction m with
  | nil =>
      intro kv hkv
      simp [ainsert] at hkv
      simpa [hkv]
  | cons kv₀ rest ih =>
      obtain ⟨k', v'⟩ := kv₀
      intro kv hkv
      by_cases hk : k' = k
      · simp [ainsert, hk] at hkv
        rcases hkv with h | h
        · simpa [h]
        · exact hm _ (List.mem_cons_of_mem _ h)
      · simp only [ainsert, if_neg hk] at hkv
        rcases List.mem_cons.mp hkv with h | h
        · exact hm _ (by simp [h])
        · exact ih (fun kv hkv => hm _ (List.mem_cons_of_mem _ hkv)) _ h

theorem forall_mem_aupdate {κ α : Type} [DecidableEq κ]
    (f : α → α) (m : List (κ × α)) (k : κ) (P : α → Prop)
    (hm : ∀ kv ∈ m, P kv.2) (hf : ∀ v, P v → P (f v)) :
    ∀ kv ∈ aupdate f m k, P kv.2 := by
  induction m with
  | nil => intro kv hkv; simp [aupdate] at hkv
  | cons kv₀ rest ih =>
      obtain ⟨k', v'⟩ := kv₀
      intro kv hkv
      by_cases hk : k' = k
      · simp [aupdate, hk] at hkv
        rcases hkv with h | h
        · have := hm (k', v') (by simp)
          simp [h]
          exact hf _ this
        · exact hm _ (List.mem_cons_of_mem _ h)
      · simp only [aupdate, if_neg hk] at hkv
        rcases List.mem_cons.mp hkv with h | h
        · exact hm _ (by simp [h])
        · exact ih (fun kv hkv => hm _ (List.mem_cons_of_mem _ hkv)) _ h

/-! ### Data model (internal/model/model.go) -/

/-- Embeds `model.EventStatus`, a Go string type. The zero value of the Go
type is the empty string, which is why `GetStatus` can return it. -/
abbrev EventStatus := String

/-- Embeds the constant `model.StatusAccepted`. -/
def StatusAccepted : EventStatus := "accepted"

/-- Embeds the constant `model.StatusProcessed`. -/
def StatusProcessed : EventStatus := "processed"

/-- Embeds `model.Event`. The payload is `json.RawMessage` in Go, stored
verbatim and never interpreted, so it is embedded as an opaque string. -/
structure Event where
  eventID : String
  payload : String
  status : EventStatus
deriving Repr, DecidableEq

/-! ### Idempotency store (internal/store/store.go), value level -/

/-- Embeds `store.Store`: the field `events map[string]*model.Event`.
At this level the pointer indirection is elided, since every store
operation except `List` is observationally a function of the key-to-record
mapping; the pointer level is modelled separately below for the claims
where the indirection is visible. -/
structure Store where
  events : List (String × Event)
deriving Repr, DecidableEq

/-- Embeds `store.New`. -/
def Store.new : Store := ⟨[]⟩

/-- Embeds `Store.Exists`: membership test on the events map. -/
def Store.Exists (s : Store) (eventID : String) : Bool :=
  (alookup s.events eventID).isSome

/-- Embeds `Store.Save`: unconditional insert `s.events[event.EventID] = event`. -/
def Store.Save (s : Store) (event : Event) : Store :=
  ⟨ainsert s.events event.eventID event⟩

/-- Embeds `Store.MarkProcessed`: if an event with the key exists, set its
status to processed; otherwise do nothing. -/
def Store.MarkProcessed (s : Store) (eventID : String) : Store :=
  ⟨aupdate (fun e => { e with status := StatusProcessed }) s.events eventID⟩

/-- Embeds `Store.GetStatus`: returns the status and a found flag; on an
unknown key it returns the zero-value status (empty string) and false. -/
def Store.GetStatus (s : Store) (eventID : String) : EventStatus × Bool :=
  match alookup s.events eventID with
  | some event => (event.status, true)
  | none => ("", false)

/-- Embeds `Store.List`: the records of the map, in the (unspecified)
iteration order of the backing structure. -/
def Store.List (s : Store) : List Event :=
  s.events.map (fun kv => kv.2)

/-! ### Submission flow (App.handleEvents, internal/app/app.go, POST branch) -/

/-- Result signalled to the caller by the POST branch of `App.handleEvents`:
HTTP 202, 409 and 400 respectively. The spec calls this operation Submit. -/
inductive SubmitResult
  | Accepted
  | Conflict
  | InvalidInput
deriving Repr, DecidableEq

/-- The state Submit touches: the store and the contents of the worker
queue (the buffered channel; `Worker.Enqueue` appends to it). -/
structure AppState where
  store : Store
  queue : List Event
deriving Repr, DecidableEq

/-- Embeds the POST branch of `App.handleEvents` (app.go): validate the
event id, check the store for a duplicate, otherwise save an accepted
record and enqueue it for the worker. -/
def Submit (a : AppState) (eventID payload : String) : SubmitResult × AppState :=
  if eventID = "" then (SubmitResult.InvalidInput, a)
  else if a.store.Exists eventID then (SubmitResult.Conflict, a)
  else
    let event : Event := ⟨eventID, payload, StatusAccepted⟩
    (SubmitResult.Accepted, ⟨a.store.Save event, a.queue ++ [event]⟩)

/-- The observable side effects of one `handleEvents` POST call, in program
order: the duplicate check, then `Store.Save`, then `Worker.Enqueue`
(app.go performs Save strictly before Enqueue). -/
inductive Effect
  | checkExists (id : String)
  | save (id : String)
  | enqueue (id : String)
deriving Repr, DecidableEq

/-- Effect trace of the POST branch of `App.handleEvents`, mirroring the
order of the statements in the source. -/
def submitEffects (a : AppState) (eventID : String) : List Effect :=
  if eventID = "" then []
  else if a.store.Exists eventID then [Effect.checkExists eventID]
  else [Effect.checkExists eventID, Effect.save eventID, Effect.enqueue eventID]

/-! ### Sequences of core operations (for the record-lifetime invariant) -/

/-- One core operation, as dispatched by the application layer:
a Submit call, the worker calling `Store.MarkProcessed`, or one of the
read-only queries. -/
inductive Op
  | submit (id payload : String)
  | markProcessed (id : String)
  | getStatus (id : String)
  | list
deriving Repr, DecidableEq

/-- The state transition of one core operation. The read-only queries
(`GetStatus`, `List`) leave the state unchanged. -/
def applyOp (a : AppState) : Op → AppState
  | Op.submit id p => (Submit a id p).2
  | Op.markProcessed id => { a with store := a.store.MarkProcessed id }
  | Op.getStatus _ => a
  | Op.list => a

/-- Run a sequence of core operations from a state. -/
def runOps (a : AppState) (ops : List Op) : AppState :=
  ops.foldl applyOp a

/-- Store well-formedness: every stored record carries one of the two
declared status values. Every store reachable through the core operations
satisfies this (Submit inserts accepted records, MarkProcessed writes
processed). -/
def Store.wf (s : Store) : Prop :=
  ∀ kv ∈ s.events, kv.2.status = StatusAccepted ∨ kv.2.status = StatusProcessed

instance (s : Store) : Decidable s.wf := by
  unfold Store.wf
  infer_instance

/-! ### Pointer-level store (internal/store/store.go with the heap explicit)

`store.Store` holds `map[string]*model.Event`, and `Store.List` returns a
slice of these pointers, not of record copies; `Store.MarkProcessed`
mutates the record through the pointer. For the claims where this
indirection is observable, the heap is made explicit: records live at
numeric addresses, the events map sends keys to addresses, and the value
returned by `List` is the list of addresses. -/

/-- Pointer-level embedding of `store.Store`: `heap` is the set of
allocated `model.Event` records addressed by allocation order, `events`
is the Go map from key to record pointer, `next` the next fresh address. -/
structure PtrStore where
  heap : List (Nat × Event)
  events : List (String × Nat)
  next : Nat
deriving Repr, DecidableEq

/-- Embeds `store.New` at pointer level. -/
def PtrStore.new : PtrStore := ⟨[], [], 0⟩

/-- Embeds `Store.Save` at pointer level: allocate the record and map the
key to its address. -/
def PtrStore.Save (s : PtrStore) (event : Event) : PtrStore :=
  ⟨ainsert s.heap s.next event, ainsert s.events event.eventID s.next, s.next + 1⟩

/-- Embeds `Store.MarkProcessed` at pointer level: when the key is mapped,
mutate the status of the record behind the pointer; otherwise no-op. -/
def PtrStore.MarkProcessed (s : PtrStore) (eventID : String) : PtrStore :=
  match alookup s.events eventID with
  | some addr =>
      { s with heap := aupdate (fun e => { e with status := StatusProcessed }) s.heap addr }
  | none => s

/-- Reading the records a returned slice of pointers designates, against
the current heap. -/
def PtrStore.deref (s : PtrStore) (ptrs : List Nat) : List (Option Event) :=
  ptrs.map (fun a => alookup s.heap a)

/-- Embeds `Store.List` at pointer level: the returned slice holds the
record pointers, one per stored key. -/
def PtrStore.List (s : PtrStore) : List Nat :=
  s.events.map (fun kv => kv.2)

/-- Pointer-level well-formedness: keys are unique (as in a Go map) and
every mapped address holds an allocated record whose `EventID` field equals
its key (`Store.Save` stores each event under its own id). -/
def PtrStore.wf (s : PtrStore) : Prop :=
  (s.events.map (fun kv => kv.1)).Nodup ∧
    ∀ kv ∈ s.events, (alookup s.heap kv.2).map (fun e => e.eventID) = some kv.1

instance (s : PtrStore) : Decidable s.wf := by
  unfold PtrStore.wf
  infer_instance

/-! ### Interleaving machine for concurrent Submit calls

The HTTP server runs `App.handleEvents` once per inbound request, each on
its own task, all sharing one `store.Store`. In the source the duplicate
check (`Store.Exists`, an RLock scope) and the insert (`Store.Save`, a
separate Lock scope) are distinct critical sections, so a concurrent
Submit with the same id can run between them. The machine below gives each
concurrent call two atomic steps at exactly that granularity. -/

/-- Control state of one in-flight `handleEvents` POST call: before the
duplicate check, after having passed the check (between the Exists RLock
scope and the Save Lock scope), or finished with a result. -/
inductive CallPC
  | start
  | passedCheck
  | done (r : SubmitResult)
deriving Repr, DecidableEq

/-- Shared state plus the control state of each concurrent Submit call
(all calls carry the same event id and payload). -/
structure ConcState where
  store : Store
  queue : List Event
  pcs : List CallPC
deriving Repr, DecidableEq

/-- Whether call `i` has a step to take. -/
def callEnabled (c : ConcState) (i : Nat) : Bool :=
  match c.pcs[i]? with
  | some CallPC.start => true
  | some CallPC.passedCheck => true
  | _ => false

/-- One atomic step of call `i`, at the lock granularity of the source:
from `start`, run the validation and the `Store.Exists` check (one RLock
scope); from `passedCheck`, run `Store.Save` plus `Worker.Enqueue` and
return 202 (the Save Lock scope and everything after it, merged — merging
steps only removes interleavings, so any behaviour of this machine is a
behaviour of the finer one). -/
def stepCall (eventID payload : String) (c : ConcState) (i : Nat) : ConcState :=
  match c.pcs[i]? with
  | some CallPC.start =>
      if eventID = "" then
        { c with pcs := c.pcs.set i (CallPC.done SubmitResult.InvalidInput) }
      else if c.store.Exists eventID then
        { c with pcs := c.pcs.set i (CallPC.done SubmitResult.Conflict) }
      else
        { c with pcs := c.pcs.set i CallPC.passedCheck }
  | some CallPC.passedCheck =>
      let event : Event := ⟨eventID, payload, StatusAccepted⟩
      { store := c.store.Save event,
        queue := c.queue ++ [event],
        pcs := c.pcs.set i (CallPC.done SubmitResult.Accepted) }
  | _ => c

/-- Run a schedule: at each point the named call takes its next step. -/
def runCalls (eventID payload : String) (c : ConcState) (sched : List Nat) : ConcState :=
  sched.foldl (stepCall eventID payload) c

/-- Whether every step of the schedule is enabled when it is taken. -/
def schedEnabled (eventID payload : String) (c : ConcState) : List Nat → Bool
  | [] => true
  | i :: rest => callEnabled c i && schedEnabled eventID payload (stepCall eventID payload c i) rest

/-! ### Interleaving machine for the worker lifecycle (internal/worker)

`Worker.Start` sets the running flag and spawns the loop goroutine;
`Worker.Stop` closes the done channel and then drains the queue, without
any synchronisation with the loop goroutine, which may itself still be
receiving from the queue (the select races between the queue case and the
done case once done is closed) and is the only writer that ever clears the
running flag. The machine below has one atomic step per channel operation
or flag write of the source. -/

/-- State of one `worker.Worker` plus the store it marks events in.
`inFlight` is the event the loop goroutine has received and is still
processing inside `processEvent`; `stopPC` tracks `Worker.Stop` (0: not
called, 1: done closed and draining, 2: returned). -/
structure WState where
  store : Store
  queue : List Event
  doneClosed : Bool
  running : Bool
  loopAlive : Bool
  inFlight : Option Event
  stopPC : Nat
deriving Repr, DecidableEq

/-- Embeds `Worker.IsRunning`: it just reads the running flag. -/
def WState.IsRunning (w : WState) : Bool := w.running

/-- A worker as built by `worker.New`, before `Start`, with the given
already-saved events sitting in the queue. -/
def WState.new (store : Store) (queue : List Event) : WState :=
  ⟨store, queue, false, false, false, none, 0⟩

/-- The atomic steps of the worker lifecycle. -/
inductive WStep
  | startW
  | goRecv
  | goFinish
  | goExit
  | stopClose
  | stopDrain
  | stopReturn
deriving Repr, DecidableEq

/-- Enabledness of each step, mirroring the guards in the source: the loop
goroutine may take the queue case of its select whenever the queue is
non-empty, and the done case whenever done is closed; the drain loop in
`Worker.Stop` iterates while the queue length is positive and returns when
it sees zero. -/
def wEnabled (w : WState) : WStep → Bool
  | WStep.startW => !w.loopAlive && !w.running
  | WStep.goRecv => w.loopAlive && w.inFlight.isNone && !w.queue.isEmpty
  | WStep.goFinish => w.inFlight.isSome
  | WStep.goExit => w.loopAlive && w.inFlight.isNone && w.doneClosed
  | WStep.stopClose => w.stopPC = 0
  | WStep.stopDrain => w.stopPC = 1 && !w.queue.isEmpty
  | WStep.stopReturn => w.stopPC = 1 && w.queue.isEmpty

/-- Effect of each atomic step.
`startW`: `Worker.Start` sets running and spawns the loop.
`goRecv`: the loop goroutine receives an event from the queue channel.
`goFinish`: the goroutine finishes `processEvent` (delay, then
`Store.MarkProcessed`).
`goExit`: the goroutine takes the done case, clears running and returns.
`stopClose`: `Worker.Stop` closes the done channel.
`stopDrain`: one drain-loop iteration of `Worker.Stop` (receive plus a
synchronous `processEvent`).
`stopReturn`: the drain loop observes an empty queue and `Stop` returns. -/
def wStep (w : WState) : WStep → WState
  | WStep.startW => { w with running := true, loopAlive := true }
  | WStep.goRecv =>
      match w.queue with
      | [] => w
      | e :: rest => { w with inFlight := some e, queue := rest }
  | WStep.goFinish =>
      match w.inFlight with
      | none => w
      | some e => { w with store := w.store.MarkProcessed e.eventID, inFlight := none }
  | WStep.goExit => { w with running := false, loopAlive := false }
  | WStep.stopClose => { w with doneClosed := true, stopPC := 1 }
  | WStep.stopDrain =>
      match w.queue with
      | [] => w
      | e :: rest => { w with store := w.store.MarkProcessed e.eventID, queue := rest }
  | WStep.stopReturn => { w with stopPC := 2 }

/-- Run a schedule of worker steps. -/
def wRun (w : WState) (sched : List WStep) : WState :=
  sched.foldl wStep w

/-- Whether every step of the schedule is enabled when it is taken. -/
def wSchedEnabled (w : WState) : List WStep → Bool
  | [] => true
  | s :: rest => wEnabled w s && wSchedEnabled (wStep w s) rest

/-! ### Claim theorems -/

/-- Claim C1: the spec demands that for concurrent Submit calls with the
same non-empty event id exactly one returns Accepted and the rest
Conflict, the Exists check and the Save acting as one atomic decision.
The code violates this: Exists runs under an RLock and Save under a
separate Lock, so two concurrent calls can both pass the duplicate check.
This theorem exhibits the interleaving: two concurrent Submit calls with
id "evt_001", scheduled check-check-save-save (every step enabled), both
finish with Accepted. -/
theorem c1_race :
    schedEnabled "evt_001" "p" ⟨Store.new, [], [CallPC.start, CallPC.start]⟩
        [0, 1, 0, 1] = true
    ∧ (runCalls "evt_001" "p" ⟨Store.new, [], [CallPC.start, CallPC.start]⟩
        [0, 1, 0, 1]).pcs
      = [CallPC.done SubmitResult.Accepted, CallPC.done SubmitResult.Accepted] := by
  decide

/-- Claim C2: the spec demands that all items queued when Stop is invoked
reach status processed before Stop returns. The code violates this: after
Stop closes the done channel, the loop goroutine may still take the queue
case of its select, and the drain loop in Stop then observes an empty
queue and returns while that item is still unprocessed. This theorem
exhibits the interleaving for K = 1: one accepted event is queued when
Stop is invoked; after close-receive-return (every step enabled) Stop has
returned, the event still has status accepted, and it is still in flight
inside the goroutine. -/
theorem c2_race :
    wSchedEnabled
        ⟨Store.new.Save ⟨"evt_001", "p", StatusAccepted⟩,
          [⟨"evt_001", "p", StatusAccepted⟩], false, true, true, none, 0⟩
        [WStep.stopClose, WStep.goRecv, WStep.stopReturn] = true
    ∧ (wRun
        ⟨Store.new.Save ⟨"evt_001", "p", StatusAccepted⟩,
          [⟨"evt_001", "p", StatusAccepted⟩], false, true, true, none, 0⟩
        [WStep.stopClose, WStep.goRecv, WStep.stopReturn]).stopPC = 2
    ∧ (wRun
        ⟨Store.new.Save ⟨"evt_001", "p", StatusAccepted⟩,
          [⟨"evt_001", "p", StatusAccepted⟩], false, true, true, none, 0⟩
        [WStep.stopClose, WStep.goRecv, WStep.stopReturn]).store.GetStatus "evt_001"
      = (StatusAccepted, true)
    ∧ (wRun
        ⟨Store.new.Save ⟨"evt_001", "p", StatusAccepted⟩,
          [⟨"evt_001", "p", StatusAccepted⟩], false, true, true, none, 0⟩
        [WStep.stopClose, WStep.goRecv, WStep.stopReturn]).inFlight
      = some ⟨"evt_001", "p", StatusAccepted⟩ := by
  decide

/-- Claim C4: the spec demands that IsRunning is false before Start, true
after Start returns, and false again after Stop completes. The first two
parts hold, but the third fails in the code: Stop never writes the running
flag; only the loop goroutine clears it when it observes the done channel,
and Stop does not wait for that. This theorem shows IsRunning false before
Start and true right after Start, and exhibits the enabled interleaving
Start-close-return in which Stop has returned (with an empty queue) while
IsRunning is still true. -/
theorem c4_race :
    (WState.new Store.new []).IsRunning = false
    ∧ (wStep (WState.new Store.new []) WStep.startW).IsRunning = true
    ∧ wSchedEnabled (WState.new Store.new [])
        [WStep.startW, WStep.stopClose, WStep.stopReturn] = true
    ∧ (wRun (WState.new Store.new [])
        [WStep.startW, WStep.stopClose, WStep.stopReturn]).stopPC = 2
    ∧ (wRun (WState.new Store.new [])
        [WStep.startW, WStep.stopClose, WStep.stopReturn]).IsRunning = true := by
  decide

/-- Claim C5: a Submit call whose non-empty event id already exists in the
store signals Conflict and mutates nothing: the store and the worker queue
are returned unchanged. -/
theorem c5_conflict_no_mutation (a : AppState) (id p : String)
    (h0 : ¬ id = "") (h1 : a.store.Exists id = true) :
    Submit a id p = (SubmitResult.Conflict, a) := by
  simp [Submit, h0, h1]

/-- Witness for claim C5 at a concrete input: a store already holding
"evt_001"; resubmitting it yields Conflict and the state unchanged. -/
theorem c5_conflict_no_mutation_witness :
    Submit ⟨⟨[("evt_001", ⟨"evt_001", "p", StatusAccepted⟩)]⟩, []⟩ "evt_001" "q"
      = (SubmitResult.Conflict,
          ⟨⟨[("evt_001", ⟨"evt_001", "p", StatusAccepted⟩)]⟩, []⟩) :=
  c5_conflict_no_mutation
    ⟨⟨[("evt_001", ⟨"evt_001", "p", StatusAccepted⟩)]⟩, []⟩ "evt_001" "q"
    (by decide) (by decide)

/-- Claim C6: a Submit call with an empty event id returns InvalidInput
immediately and mutates nothing: the store gains no entry and nothing is
enqueued. -/
theorem c6_empty_id_rejected (a : AppState) (p : String) :
    Submit a "" p = (SubmitResult.InvalidInput, a) := by
  simp [Submit]

/-- Claim C3: a Submit call with a non-empty id not already in the store
returns Accepted; the effect trace of the handler performs Save strictly
before Enqueue; and on the resulting state GetStatus on that id reports
status accepted with found true, so there is no window in which a query
issued after Submit returns reports not-found. -/
theorem c3_visibility (a : AppState) (id p : String)
    (h0 : ¬ id = "") (h1 : a.store.Exists id = false) :
    (Submit a id p).1 = SubmitResult.Accepted
    ∧ (Submit a id p).2.store.GetStatus id = (StatusAccepted, true)
    ∧ (Submit a id p).2.queue = a.queue ++ [⟨id, p, StatusAccepted⟩]
    ∧ submitEffects a id
        = [Effect.checkExists id, Effect.save id, Effect.enqueue id] := by
  have hsub : Submit a id p
      = (SubmitResult.Accepted,
          ⟨a.store.Save ⟨id, p, StatusAccepted⟩,
            a.queue ++ [⟨id, p, StatusAccepted⟩]⟩) := by
    simp [Submit, h0, h1]
  refine ⟨by rw [hsub], ?_, by rw [hsub], by simp [submitEffects, h0, h1]⟩
  rw [hsub]
  simp [Store.GetStatus, Store.Save, alookup_ainsert_self]

/-- Witness for claim C3 at a concrete input: submitting "evt_001" to the
empty store yields Accepted, immediate visibility via GetStatus, the event
enqueued, and the Save-before-Enqueue effect trace. -/
theorem c3_visibility_witness :
    (Submit ⟨Store.new, []⟩ "evt_001" "p").1 = SubmitResult.Accepted
    ∧ (Submit ⟨Store.new, []⟩ "evt_001" "p").2.store.GetStatus "evt_001"
        = (StatusAccepted, true)
    ∧ (Submit ⟨Store.new, []⟩ "evt_001" "p").2.queue
        = [] ++ [⟨"evt_001", "p", StatusAccepted⟩]
    ∧ submitEffects ⟨Store.new, []⟩ "evt_001"
        = [Effect.checkExists "evt_001", Effect.save "evt_001",
            Effect.enqueue "evt_001"] :=
  c3_visibility ⟨Store.new, []⟩ "evt_001" "p" (by decide) (by decide)

/-- Claim C8: MarkProcessed sets the status of the record behind the key
to processed when one exists, is a silent no-op returning the store
unchanged when the key is unknown, and GetStatus on a key never inserted
reports found false (with the zero-value status) rather than an error. -/
theorem c8_markProcessed_getStatus (s : Store) (k : String) :
    alookup (s.MarkProcessed k).events k
        = (alookup s.events k).map (fun e => { e with status := StatusProcessed })
    ∧ (s.Exists k = false → s.MarkProcessed k = s)
    ∧ (s.Exists k = false → s.GetStatus k = ("", false)) := by
  refine ⟨?_, ?_, ?_⟩
  · have h := alookup_aupdate (fun e => { e with status := StatusProcessed })
      s.events k k
    simpa [Store.MarkProcessed] using h
  · intro h
    have hnone : alookup s.events k = none := by
      cases hl : alookup s.events k with
      | none => rfl
      | some e => simp [Store.Exists, hl] at h
    show Store.MarkProcessed s k = s
    unfold Store.MarkProcessed
    rw [aupdate_of_alookup_none _ _ _ hnone]
  · intro h
    have hnone : alookup s.events k = none := by
      cases hl : alookup s.events k with
      | none => rfl
      | some e => simp [Store.Exists, hl] at h
    simp [Store.GetStatus, hnone]

/-- Witness for claim C8 at a concrete input: on a store holding only
"evt_001", MarkProcessed of the unknown key "nope" returns the store
unchanged and GetStatus of it reports not found. -/
theorem c8_markProcessed_getStatus_witness :
    Store.MarkProcessed ⟨[("evt_001", ⟨"evt_001", "p", StatusAccepted⟩)]⟩ "nope"
        = ⟨[("evt_001", ⟨"evt_001", "p", StatusAccepted⟩)]⟩
    ∧ Store.GetStatus ⟨[("evt_001", ⟨"evt_001", "p", StatusAccepted⟩)]⟩ "nope"
        = ("", false) :=
  ⟨(c8_markProcessed_getStatus
      ⟨[("evt_001", ⟨"evt_001", "p", StatusAccepted⟩)]⟩ "nope").2.1 (by decide),
   (c8_markProcessed_getStatus
      ⟨[("evt_001", ⟨"evt_001", "p", StatusAccepted⟩)]⟩ "nope").2.2 (by decide)⟩

/-- Claim C10: Exists answers true exactly when GetStatus reports found,
and on a not-found key the returned status is the empty string, which
differs from both declared status values accepted and processed. -/
theorem c10_exists_getStatus (s : Store) (k : String) :
    s.Exists k = (s.GetStatus k).2
    ∧ ((s.GetStatus k).2 = false → (s.GetStatus k).1 = "")
    ∧ ("" : EventStatus) ≠ StatusAccepted
    ∧ ("" : EventStatus) ≠ StatusProcessed := by
  refine ⟨?_, ?_, by decide, by decide⟩
  · cases hl : alookup s.events k <;> simp [Store.Exists, Store.GetStatus, hl]
  · cases hl : alookup s.events k <;> simp [Store.GetStatus, hl]

/-- Witness for claim C10 at a concrete input: on the empty store and key
"x", Exists agrees with the found flag and the not-found status is the
empty string. -/
theorem c10_exists_getStatus_witness :
    Store.Exists Store.new "x" = (Store.GetStatus Store.new "x").2
    ∧ (Store.GetStatus Store.new "x").1 = "" :=
  ⟨(c10_exists_getStatus Store.new "x").1,
   (c10_exists_getStatus Store.new "x").2.1 (by decide)⟩

/-! ### Record-lifetime invariant (claim C7): helper lemmas -/

theorem lookup_submit_preserved (a : AppState) (id p k : String) (e : Event)
    (hk : alookup a.store.events k = some e) :
    alookup (Submit a id p).2.store.events k = some e := by
  by_cases h0 : id = ""
  · simpa [Submit, h0] using hk
  · by_cases h1 : a.store.Exists id = true
    · simpa [Submit, h0, h1] using hk
    · have h1' : a.store.Exists id = false := by simpa using h1
      have hne : id ≠ k := by
        intro hik
        subst hik
        simp [Store.Exists, hk] at h1'
      simp only [Submit, if_neg h0, h1', Bool.false_eq_true, if_false, Store.Save]
      rw [alookup_ainsert_ne _ _ _ _ hne]
      exact hk

theorem wf_applyOp (a : AppState) (op : Op) (h : a.store.wf) :
    (applyOp a op).store.wf := by
  cases op with
  | submit id p =>
      by_cases h0 : id = ""
      · simpa [applyOp, Submit, h0] using h
      · by_cases h1 : a.store.Exists id = true
        · simpa [applyOp, Submit, h0, h1] using h
        · have h1' : a.store.Exists id = false := by simpa using h1
          simp only [applyOp, Submit, if_neg h0, h1', Bool.false_eq_true, if_false]
          intro kv hkv
          exact forall_mem_ainsert a.store.events id ⟨id, p, StatusAccepted⟩
            (fun kv => kv.2.status = StatusAccepted ∨ kv.2.status = StatusProcessed)
            h (Or.inl rfl) kv hkv
  | markProcessed id =>
      have hevents : (applyOp a (Op.markProcessed id)).store.events
          = aupdate (fun e => { e with status := StatusProcessed }) a.store.events id :=
        rfl
      intro kv hkv
      rw [hevents] at hkv
      exact forall_mem_aupdate (fun e => { e with status := StatusProcessed })
        a.store.events id
        (fun v => v.status = StatusAccepted ∨ v.status = StatusProcessed)
        h (fun v _ => Or.inr rfl) kv hkv
  | getStatus id => exact h
  | list => exact h

theorem lookup_applyOp (a : AppState) (op : Op) (k : String) (e : Event)
    (hwf : a.store.wf) (hk : alookup a.store.events k = some e) :
    ∃ e', alookup (applyOp a op).store.events k = some e'
      ∧ e'.eventID = e.eventID ∧ e'.payload = e.payload
      ∧ (e'.status = e.status
          ∨ (e.status = StatusAccepted ∧ e'.status = StatusProcessed)) := by
  cases op with
  | submit id p =>
      exact ⟨e, lookup_submit_preserved a id p k e hk, rfl, rfl, Or.inl rfl⟩
  | markProcessed id =>
      by_cases hik : id = k
      · subst hik
        refine ⟨{ e with status := StatusProcessed }, ?_, rfl, rfl, ?_⟩
        · show alookup (Store.MarkProcessed a.store id).events id = _
          unfold Store.MarkProcessed
          rw [alookup_aupdate]
          simp [hk]
        · have hmem := mem_of_alookup_eq_some a.store.events id e hk
          rcases hwf (id, e) hmem with hacc | hproc
          · exact Or.inr ⟨hacc, rfl⟩
          · exact Or.inl hproc.symm
      · refine ⟨e, ?_, rfl, rfl, Or.inl rfl⟩
        show alookup (Store.MarkProcessed a.store id).events k = some e
        unfold Store.MarkProcessed
        rw [alookup_aupdate]
        simp [hik, hk]
  | getStatus id => exact ⟨e, hk, rfl, rfl, Or.inl rfl⟩
  | list => exact ⟨e, hk, rfl, rfl, Or.inl rfl⟩

/-- Claim C7: across any sequence of core operations on a well-formed
state, a stored record is never removed, keeps its key and payload, and
its status only ever steps from accepted to processed, never in reverse
and at most once (the record found afterwards either still carries the
original status or witnesses the single accepted-to-processed step). -/
theorem c7_record_invariant (ops : List Op) (a : AppState) (k : String) (e : Event)
    (hwf : a.store.wf) (hk : alookup a.store.events k = some e) :
    ∃ e', alookup (runOps a ops).store.events k = some e'
      ∧ e'.eventID = e.eventID ∧ e'.payload = e.payload
      ∧ (e'.status = e.status
          ∨ (e.status = StatusAccepted ∧ e'.status = StatusProcessed)) := by
  induction ops generalizing a e with
  | nil => exact ⟨e, hk, rfl, rfl, Or.inl rfl⟩
  | cons op rest ih =>
      obtain ⟨e₁, h1, hid1, hpl1, hst1⟩ := lookup_applyOp a op k e hwf hk
      obtain ⟨e₂, h2, hid2, hpl2, hst2⟩ := ih (applyOp a op) e₁ (wf_applyOp a op hwf) h1
      refine ⟨e₂, h2, hid2.trans hid1, hpl2.trans hpl1, ?_⟩
      rcases hst1 with hEq | ⟨hacc, hproc⟩
      · rcases hst2 with hEq2 | ⟨hacc2, hproc2⟩
        · exact Or.inl (hEq2.trans hEq)
        · exact Or.inr ⟨hEq.symm.trans hacc2 |>.symm.symm, hproc2⟩
      · rcases hst2 with hEq2 | ⟨hacc2, hproc2⟩
        · exact Or.inr ⟨hacc, hEq2.trans hproc⟩
        · exact Or.inr ⟨hacc, hproc2⟩

/-- Witness for claim C7 at a concrete input: starting from a store holding
"evt_001" as accepted and running MarkProcessed then List, the record is
still present with its key and payload, at the processed step. -/
theorem c7_record_invariant_witness :
    ∃ e', alookup (runOps ⟨⟨[("evt_001", ⟨"evt_001", "p", StatusAccepted⟩)]⟩, []⟩
        [Op.markProcessed "evt_001", Op.list]).store.events "evt_001" = some e'
      ∧ e'.eventID = "evt_001" ∧ e'.payload = "p"
      ∧ (e'.status = StatusAccepted
          ∨ (StatusAccepted = StatusAccepted ∧ e'.status = StatusProcessed)) :=
  c7_record_invariant [Op.markProcessed "evt_001", Op.list]
    ⟨⟨[("evt_001", ⟨"evt_001", "p", StatusAccepted⟩)]⟩, []⟩ "evt_001"
    ⟨"evt_001", "p", StatusAccepted⟩ (by decide) (by decide)

/-! ### Pointer-level facts for the List snapshot claim (C9) -/

theorem alookup_isSome_of_mem {κ α : Type} [DecidableEq κ]
    (m : List (κ × α)) (k : κ) (v : α) (h : (k, v) ∈ m) :
    ∃ w, alookup m k = some w := by
  induction m with
  | nil => simp at h
  | cons kv rest ih =>
      obtain ⟨k', v'⟩ := kv
      by_cases hk : k' = k
      · exact ⟨v', by simp [alookup, hk]⟩
      · have hmem : (k, v) ∈ rest := by
          rcases List.mem_cons.mp h with h1 | h1
          · obtain ⟨hk1, hv1⟩ := Prod.mk.injEq .. ▸ h1
            exact absurd hk1.symm hk
          · exact h1
        obtain ⟨w, hw⟩ := ih hmem
        exact ⟨w, by simp [alookup, hk, hw]⟩

theorem nodup_keys_unique {κ α : Type} [DecidableEq κ]
    (m : List (κ × α)) (hnd : (m.map (fun kv => kv.1)).Nodup)
    (k : κ) (v v' : α) (h1 : (k, v) ∈ m) (h2 : (k, v') ∈ m) : v = v' := by
  induction m with
  | nil => simp at h1
  | cons kv rest ih =>
      obtain ⟨k₀, v₀⟩ := kv
      rw [List.map_cons, List.nodup_cons] at hnd
      obtain ⟨hnotin, hnd'⟩ := hnd
      rcases List.mem_cons.mp h1 with ha | ha
      · rcases List.mem_cons.mp h2 with hb | hb
        · have hab : (k, v) = (k, v') := ha.trans hb.symm
          exact ((Prod.mk.injEq .. ▸ hab) : k = k ∧ v = v').2
        · obtain ⟨hk1, hv1⟩ := (Prod.mk.injEq .. ▸ ha : k = k₀ ∧ v = v₀)
          exact absurd (List.mem_map.mpr ⟨(k, v'), hb, by simp [hk1]⟩) hnotin
      · rcases List.mem_cons.mp h2 with hb | hb
        · obtain ⟨hk1, hv1⟩ := (Prod.mk.injEq .. ▸ hb : k = k₀ ∧ v' = v₀)
          exact absurd (List.mem_map.mpr ⟨(k, v), ha, by simp [hk1]⟩) hnotin
        · exact ih hnd' ha hb

theorem list_map_congr {β γ : Type} (l : List β) (f g : β → γ)
    (h : ∀ x ∈ l, f x = g x) : l.map f = l.map g := by
  induction l with
  | nil => rfl
  | cons x xs ih =>
      rw [List.map_cons, List.map_cons, h x (by simp),
        ih (fun y hy => h y (List.mem_cons_of_mem _ hy))]

theorem deref_markProcessed_pointwise (s : PtrStore) (k : String) (hwf : s.wf)
    (a : Nat) (ha : a ∈ s.List) :
    alookup (s.MarkProcessed k).heap a
      = (alookup s.heap a).map
          (fun e => if e.eventID = k then { e with status := StatusProcessed } else e) := by
  obtain ⟨hnd, hrec⟩ := hwf
  obtain ⟨kv, hkv, hkva⟩ := List.mem_map.mp ha
  have hk2 := hrec kv hkv
  cases hE : alookup s.heap kv.2 with
  | none => rw [hE] at hk2; simp at hk2
  | some e =>
      rw [hE] at hk2
      simp only [Option.map_some'] at hk2
      have hEid : e.eventID = kv.1 := Option.some.inj hk2
      subst hkva
      cases hL : alookup s.events k with
      | none =>
          have hsame : s.MarkProcessed k = s := by
            unfold PtrStore.MarkProcessed
            rw [hL]
          rw [hsame, hE]
          have hne : e.eventID ≠ k := by
            intro hek
            have hmem : (k, kv.2) ∈ s.events := by
              have : kv.1 = k := hEid.symm.trans hek
              rw [← this]
              exact hkv
            obtain ⟨w, hw⟩ := alookup_isSome_of_mem s.events k kv.2 hmem
            rw [hL] at hw
            exact Option.noConfusion hw
          simp [hne]
      | some addrk =>
          have hheap : (s.MarkProcessed k).heap
              = aupdate (fun e => { e with status := StatusProcessed }) s.heap addrk := by
            unfold PtrStore.MarkProcessed
            rw [hL]
          rw [hheap, alookup_aupdate]
          have hmemk : (k, addrk) ∈ s.events := mem_of_alookup_eq_some _ _ _ hL
          by_cases haddr : addrk = kv.2
          · subst haddr
            have hk3 : (alookup s.heap kv.2).map (fun e => e.eventID) = some k :=
              hrec (k, kv.2) hmemk
            rw [hE] at hk3
            simp only [Option.map_some'] at hk3
            have hek : e.eventID = k := Option.some.inj hk3
            simp [hE, hek]
          · have hne : e.eventID ≠ k := by
              intro hek
              have hk1 : kv.1 = k := hEid.symm.trans hek
              have hmem2 : (k, kv.2) ∈ s.events := by
                rw [← hk1]
                exact hkv
              exact haddr (nodup_keys_unique s.events hnd k addrk kv.2 hmemk hmem2)
            simp [haddr, hE, hne]

/-- Claim C9 counterexample: List does not return a snapshot copy. On the
store obtained by saving "evt_001" as accepted, take the slice List
returns, then run MarkProcessed; reading the records through the already
returned slice now shows the processed status, so the mutation after List
altered the sequence List had returned, contradicting the claim. -/
theorem c9_counterexample :
    PtrStore.deref
        (PtrStore.MarkProcessed
          (PtrStore.Save PtrStore.new ⟨"evt_001", "p", StatusAccepted⟩) "evt_001")
        (PtrStore.List (PtrStore.Save PtrStore.new ⟨"evt_001", "p", StatusAccepted⟩))
      ≠ PtrStore.deref
          (PtrStore.Save PtrStore.new ⟨"evt_001", "p", StatusAccepted⟩)
          (PtrStore.List (PtrStore.Save PtrStore.new ⟨"evt_001", "p", StatusAccepted⟩)) := by
  decide

/-- Claim C9 as amended: List returns a fresh slice with one pointer per
stored key, and at call time the pointers dereference to the stored
records; but the slice shares the records with the store, so a later
MarkProcessed leaves the membership of an already returned slice unchanged
while the status change is visible through its pointers (each dereferenced
record is the one seen at call time, with its status set to processed
exactly when its key is the marked one). -/
theorem c9_amended (s : PtrStore) (k : String) (hwf : s.wf) :
    (s.MarkProcessed k).List = s.List
    ∧ s.List.length = s.events.length
    ∧ (s.MarkProcessed k).deref s.List
        = (s.deref s.List).map (Option.map
            (fun e => if e.eventID = k then { e with status := StatusProcessed } else e)) := by
  refine ⟨?_, ?_, ?_⟩
  · unfold PtrStore.MarkProcessed PtrStore.List
    cases alookup s.events k <;> rfl
  · show (s.events.map (fun kv => kv.2)).length = s.events.length
    exact List.length_map _ _
  · unfold PtrStore.deref
    rw [List.map_map]
    exact list_map_congr s.List _ _
      (fun a ha => deref_markProcessed_pointwise s k hwf a ha)

/-- Witness for the amended claim C9 at a concrete input: the store holding
"evt_001" as accepted, marked as processed after List. -/
theorem c9_amended_witness :
    ((PtrStore.Save PtrStore.new ⟨"evt_001", "p", StatusAccepted⟩).MarkProcessed
        "evt_001").List
      = (PtrStore.Save PtrStore.new ⟨"evt_001", "p", StatusAccepted⟩).List
    ∧ (PtrStore.Save PtrStore.new ⟨"evt_001", "p", StatusAccepted⟩).List.length
      = (PtrStore.Save PtrStore.new ⟨"evt_001", "p", StatusAccepted⟩).events.length
    ∧ ((PtrStore.Save PtrStore.new ⟨"evt_001", "p", StatusAccepted⟩).MarkProcessed
          "evt_001").deref
        (PtrStore.Save PtrStore.new ⟨"evt_001", "p", StatusAccepted⟩).List
      = ((PtrStore.Save PtrStore.new ⟨"evt_001", "p", StatusAccepted⟩).deref
          (PtrStore.Save PtrStore.new ⟨"evt_001", "p", StatusAccepted⟩).List).map
          (Option.map (fun e =>
            if e.eventID = "evt_001" then { e with status := StatusProcessed } else e)) :=
  c9_amended (PtrStore.Save PtrStore.new ⟨"evt_001", "p", StatusAccepted⟩) "evt_001"
    (by decide)
